import Mathlib

/-!
Verification of the port-scanner pipeline in `scripts/scan.py`.

The Python source is shallowly embedded: each Python helper becomes a Lean
function over `List Char` / `String`, subprocess output is abstracted as the
list of raw lines it produces, and `sys.exit` / uncaught exceptions become an
explicit result type.  Python integers are modelled as `Int` (they are
unbounded), ports parsed from digit runs as `Nat` coerced into `Int`.
-/

namespace PortScan

/-- Whitespace recognised by Python's `str.split()` (ASCII subset:
space, tab, newline, carriage return, vertical tab, form feed). -/
def isPySpace (c : Char) : Bool :=
  c = ' ' || c = '\t' || c = '\n' || c = '\r' || c = Char.ofNat 11 || c = Char.ofNat 12

/-- Accumulator pass for `str.split()` with no separator: whitespace runs
delimit fields, empty fields are never produced. -/
def pySplitAux : List Char → List Char → List (List Char)
  | [], acc => if acc.isEmpty then [] else [acc.reverse]
  | c :: cs, acc =>
    if isPySpace c then
      if acc.isEmpty then pySplitAux cs [] else acc.reverse :: pySplitAux cs []
    else pySplitAux cs (c :: acc)

/-- Python `line.split()` : split on whitespace runs, dropping empty fields. -/
def pySplit (s : String) : List String :=
  (pySplitAux s.data []).map String.mk

/-- Accumulator pass for Python `s.split(sep)` with a one-character separator:
every occurrence of `sep` delimits a field, empty fields are kept. -/
def splitOnCharAux (sep : Char) : List Char → List Char → List (List Char)
  | [], acc => [acc.reverse]
  | c :: cs, acc =>
    if c = sep then acc.reverse :: splitOnCharAux sep cs []
    else splitOnCharAux sep cs (c :: acc)

/-- Numeric value of a list of decimal digit characters. -/
def digitsVal (ds : List Char) : Nat :=
  ds.foldl (fun n c => n * 10 + (c.toNat - 48)) 0

/-- Continuation of `pyDigitPart`: digits, with single underscores allowed
between digits (Python integer-literal grammar used by `int()`). -/
def pyDigitGo : List Char → List Char → Option (List Char)
  | [], acc => some acc.reverse
  | '_' :: c :: cs, acc => if c.isDigit then pyDigitGo cs (c :: acc) else none
  | ['_'], _ => none
  | c :: cs, acc => if c.isDigit then pyDigitGo cs (c :: acc) else none

/-- Python digit-part: nonempty digits with optional single underscores
between digits; returns the digits with underscores removed. -/
def pyDigitPart : List Char → Option (List Char)
  | [] => none
  | c :: cs => if c.isDigit then pyDigitGo cs [c] else none

/-- Strip leading and trailing whitespace, as `int()` does. -/
def stripPySpace (cs : List Char) : List Char :=
  ((cs.dropWhile isPySpace).reverse.dropWhile isPySpace).reverse

/-- Python `int(s)` in base 10: optional surrounding whitespace, optional
sign, digit part; `none` models the `ValueError` raised otherwise
(ASCII digits; the enumerator output and CLI input modelled here are ASCII). -/
def pyIntChars (cs : List Char) : Option Int :=
  match stripPySpace cs with
  | '+' :: rest => (pyDigitPart rest).map (fun ds => (digitsVal ds : Int))
  | '-' :: rest => (pyDigitPart rest).map (fun ds => -(digitsVal ds : Int))
  | rest => (pyDigitPart rest).map (fun ds => (digitsVal ds : Int))

/-- Python `int(s)` on a string. -/
def pyInt (s : String) : Option Int := pyIntChars s.data

/-- The regex `:(\d+)$` applied by `re.search`: matches when the string ends
in a maximal nonempty digit run immediately preceded by a colon, and captures
that digit run.  (`\d` modelled as ASCII digits.) -/
def trailingPort (s : String) : Option Nat :=
  let rcs := s.data.reverse
  let ds := rcs.takeWhile Char.isDigit
  if ds.isEmpty then none
  else
    match rcs.drop ds.length with
    | ':' :: _ => some (digitsVal ds.reverse)
    | _ => none

/-- Model of `re.search` of the regex `\("([^"]+)",pid=(\d+)` used by `scan_linux`:
scan left to right for `("`, a nonempty run of non-quote characters, then
the literal `",pid=` followed by a nonempty digit run; capture the name run
and the digit run.  On an inner failure the search resumes one character
after the `(` that started the attempt; since that next character is `"`,
which never begins a match, resuming there equals resuming after it. -/
def annotMatch : List Char → Option (List Char × List Char)
  | [] => none
  | '(' :: '"' :: rest =>
    let proc := rest.takeWhile (fun c => c ≠ '"')
    (match rest.drop proc.length with
     | '"' :: ',' :: 'p' :: 'i' :: 'd' :: '=' :: rest2 =>
       let ds := rest2.takeWhile Char.isDigit
       if proc.isEmpty || ds.isEmpty then annotMatch rest
       else some (proc, ds)
     | _ => annotMatch rest)
  | _ :: rest => annotMatch rest

/-- The sole domain entity: one listening socket with its owning process. -/
structure Entry where
  proto : String
  port : Int
  pid : String
  process : String
deriving DecidableEq, Repr

/-- One iteration of the per-line loop in `scan_macos` (both the TCP and the
UDP loop have this body, differing only in the protocol tag): split into
columns, require at least 9, read process from column 0, pid from column 1,
and the port from a trailing `:digits` in column 8; otherwise drop the line. -/
def parseMacLine (proto : String) (line : String) : Option Entry :=
  let cols := pySplit line
  if cols.length < 9 then none
  else
    match trailingPort (cols.getD 8 "") with
    | some port => some ⟨proto, (port : Int), cols.getD 1 "", cols.getD 0 ""⟩
    | none => none

/-- The per-protocol loop of `scan_macos` on the raw output lines of one
`lsof` invocation: skip the header line, parse each remaining line. -/
def scan_macos_lines (proto : String) (lines : List String) : List Entry :=
  (lines.drop 1).filterMap (parseMacLine proto)

/-- Function `scan_macos`, with each `lsof` invocation abstracted as the list of lines
it printed (a timed-out or missing utility contributes `[]`). -/
def scan_macos (tcpLines udpLines : List String) : List Entry :=
  scan_macos_lines "TCP" tcpLines ++ scan_macos_lines "UDP" udpLines

/-- The first column (if any) of an `ss` output line whose text matches the
process-annotation regex, as searched by the `for col in cols` loop. -/
def findAnnot : List String → Option (List Char × List Char)
  | [] => none
  | c :: rest =>
    match annotMatch c.data with
    | some r => some r
    | none => findAnnot rest

/-- One iteration of the per-line loop in `scan_linux`: split into columns,
require at least 5, read the port from a trailing `:digits` in column 3,
and take pid/process from the first column matching the annotation regex,
defaulting both to `"-"` when no column matches. -/
def parseLinuxLine (proto : String) (line : String) : Option Entry :=
  let cols := pySplit line
  if cols.length < 5 then none
  else
    match trailingPort (cols.getD 3 "") with
    | none => none
    | some port =>
      match findAnnot cols with
      | some (proc, pid) => some ⟨proto, (port : Int), String.mk pid, String.mk proc⟩
      | none => some ⟨proto, (port : Int), "-", "-"⟩

/-- The per-protocol loop of `scan_linux` on the raw output lines of one
`ss` invocation: skip the header line, parse each remaining line. -/
def scan_linux_lines (proto : String) (lines : List String) : List Entry :=
  (lines.drop 1).filterMap (parseLinuxLine proto)

/-- Function `scan_linux`, with each `ss` invocation abstracted as the list of lines
it printed (a timed-out or missing utility contributes `[]`). -/
def scan_linux (tcpLines udpLines : List String) : List Entry :=
  scan_linux_lines "TCP" tcpLines ++ scan_linux_lines "UDP" udpLines

/-- The options dictionary built by `parse_args`, with its initial values. -/
structure Opts where
  format : String := "text"
  range_start : Option Int := none
  range_end : Option Int := none
deriving DecidableEq, Repr

/-- Outcome of `parse_args`: a normal return, or one of the three ways the
process terminates during parsing.  `helpExit` is `usage(); sys.exit(0)`
(message on standard output); `usageExit` is an explicit error message to
the error stream followed by `sys.exit(1)`; `valueError` is the uncaught
`ValueError` from `int()`, on which the interpreter prints a traceback to
the error stream and exits with status 1. -/
inductive ParseResult where
  | ok (opts : Opts)
  | helpExit
  | usageExit
  | valueError
deriving DecidableEq, Repr

/-- The argument loop of `parse_args`, one constructor case per flag. -/
def parseLoop (opts : Opts) : List String → ParseResult
  | [] => .ok opts
  | arg :: rest =>
    if arg = "--help" then .helpExit
    else if arg = "--common" then
      parseLoop { opts with range_start := some 1, range_end := some 1024 } rest
    else if arg = "--range" then
      match rest with
      | [] => .usageExit
      | v :: rest2 =>
        let parts := splitOnCharAux '-' v.data []
        if parts.length ≠ 2 then .usageExit
        else
          match pyIntChars (parts.getD 0 []), pyIntChars (parts.getD 1 []) with
          | some a, some b =>
            parseLoop { opts with range_start := some a, range_end := some b } rest2
          | _, _ => .valueError
    else if arg = "--format" then
      match rest with
      | [] => .usageExit
      | v :: rest2 =>
        if v = "text" || v = "json" then parseLoop { opts with format := v } rest2
        else .usageExit
    else .usageExit

/-- Python `parse_args(argv)`. -/
def parse_args (argv : List String) : ParseResult := parseLoop {} argv

/-- The process exit status a `ParseResult` causes (`none`: no exit). -/
def exitCode : ParseResult → Option Nat
  | .ok _ => none
  | .helpExit => some 0
  | .usageExit => some 1
  | .valueError => some 1

/-- Whether the `ParseResult` wrote a message to the error stream. -/
def writesStderr : ParseResult → Bool
  | .usageExit => true
  | .valueError => true
  | _ => false

/-- The range step of `filter_ports`: the list comprehension keeping entries
with `lo <= port <= hi`, applied only when both bounds are set. -/
def rangeFilter (entries : List Entry) (range_start range_end : Option Int) : List Entry :=
  match range_start, range_end with
  | some lo, some hi => entries.filter (fun e => decide (lo ≤ e.port) && decide (e.port ≤ hi))
  | _, _ => entries

/-- The deduplication key `(e["proto"], e["port"], e["pid"])`. -/
def entryKey (e : Entry) : String × Int × String := (e.proto, e.port, e.pid)

/-- The dedup loop of `filter_ports`: keep an entry when its key has not been
seen, recording seen keys (the Python `set` modelled as a list of keys). -/
def dedupLoop (seen : List (String × Int × String)) : List Entry → List Entry
  | [] => []
  | e :: rest =>
    if entryKey e ∈ seen then dedupLoop seen rest
    else e :: dedupLoop (entryKey e :: seen) rest

/-- Lexicographic code-point comparison of two character lists:
`charListLe x y` is Python's `x <= y` on the strings they spell (compare
the first differing position, a proper prefix sorts first). -/
def charListLe : List Char → List Char → Bool
  | [], _ => true
  | _ :: _, [] => false
  | a :: as, b :: bs =>
    if a.toNat < b.toNat then true
    else if b.toNat < a.toNat then false
    else charListLe as bs

/-- The order used by `unique.sort(key=lambda e: (e["port"], e["proto"]))`:
Python compares the key tuples lexicographically, numerically on the port
and code-point-lexicographically on the protocol string. -/
def entryLe (a b : Entry) : Prop :=
  a.port < b.port ∨ (a.port = b.port ∧ charListLe a.proto.data b.proto.data = true)

instance : DecidableRel entryLe := fun a b => by
  unfold entryLe; infer_instance

instance : IsTotal Entry entryLe where
  total a b := by
    have hc : ∀ x y : List Char, charListLe x y = true ∨ charListLe y x = true := by
      intro x
      induction x with
      | nil => intro y; left; rfl
      | cons a as ih =>
        intro y
        cases y with
        | nil => right; rfl
        | cons b bs =>
          rcases Nat.lt_trichotomy a.toNat b.toNat with h | h | h
          · left; simp [charListLe, h]
          · rcases ih bs with h2 | h2
            · left; simp [charListLe, h, h2]
            · right; simp [charListLe, h, h2]
          · right; simp [charListLe, h]
    rcases lt_trichotomy a.port b.port with h | h | h
    · exact Or.inl (Or.inl h)
    · rcases hc a.proto.data b.proto.data with h2 | h2
      · exact Or.inl (Or.inr ⟨h, h2⟩)
      · exact Or.inr (Or.inr ⟨h.symm, h2⟩)
    · exact Or.inr (Or.inl h)

instance : IsTrans Entry entryLe where
  trans a b c hab hbc := by
    have hct : ∀ x y z : List Char,
        charListLe x y = true → charListLe y z = true → charListLe x z = true := by
      intro x
      induction x with
      | nil => intro y z h1 h2; rfl
      | cons a as ih =>
        intro y z h1 h2
        cases y with
        | nil => simp [charListLe] at h1
        | cons b bs =>
          cases z with
          | nil => simp [charListLe] at h2
          | cons cz cs =>
            rcases Nat.lt_trichotomy a.toNat b.toNat with h3 | h3 | h3
            · rcases Nat.lt_trichotomy b.toNat cz.toNat with h4 | h4 | h4
              · simp [charListLe, show a.toNat < cz.toNat by omega]
              · simp [charListLe, show a.toNat < cz.toNat by omega]
              · simp [charListLe, show ¬ b.toNat < cz.toNat by omega, h4] at h2
            · rcases Nat.lt_trichotomy b.toNat cz.toNat with h4 | h4 | h4
              · simp [charListLe, show a.toNat < cz.toNat by omega]
              · simp [charListLe, show ¬ a.toNat < b.toNat by omega,
                  show ¬ b.toNat < a.toNat by omega] at h1
                simp [charListLe, show ¬ b.toNat < cz.toNat by omega,
                  show ¬ cz.toNat < b.toNat by omega] at h2
                simp [charListLe, show ¬ a.toNat < cz.toNat by omega,
                  show ¬ cz.toNat < a.toNat by omega]
                exact ih bs cs h1 h2
              · simp [charListLe, show ¬ b.toNat < cz.toNat by omega, h4] at h2
            · simp [charListLe, show ¬ a.toNat < b.toNat by omega, h3] at h1
    rcases hab with h1 | ⟨h1, h1p⟩ <;> rcases hbc with h2 | ⟨h2, h2p⟩
    · exact Or.inl (h1.trans h2)
    · exact Or.inl (h2 ▸ h1)
    · exact Or.inl (h1 ▸ h2)
    · exact Or.inr ⟨h1.trans h2, hct _ _ _ h1p h2p⟩

/-- Python `filter_ports(entries, opts)`: optional range filter, dedup by
`(proto, port, pid)`, then a stable ascending sort by `(port, proto)`
(Python's stable `list.sort` modelled by stable insertion sort). -/
def filter_ports (entries : List Entry) (opts : Opts) : List Entry :=
  let filtered := rangeFilter entries opts.range_start opts.range_end
  let unique := dedupLoop [] filtered
  unique.insertionSort entryLe

/-- Hexadecimal digit character, lowercase, as used by `json.dumps`. -/
def hexDigit (n : Nat) : Char :=
  if n < 10 then Char.ofNat (48 + n) else Char.ofNat (87 + n)

/-- A `\uXXXX` escape for a code unit. -/
def uEscape (n : Nat) : List Char :=
  ['\\', 'u', hexDigit (n / 4096 % 16), hexDigit (n / 256 % 16),
   hexDigit (n / 16 % 16), hexDigit (n % 16)]

/-- Escaping of one character inside a JSON string literal, following
`json.dumps` with its default `ensure_ascii=True` (non-ASCII characters
become `\uXXXX`, non-BMP ones a surrogate pair). -/
def jsonEscapeChar (c : Char) : List Char :=
  if c = '"' then ['\\', '"']
  else if c = '\\' then ['\\', '\\']
  else if c = '\n' then ['\\', 'n']
  else if c = '\t' then ['\\', 't']
  else if c = '\r' then ['\\', 'r']
  else if c = Char.ofNat 8 then ['\\', 'b']
  else if c = Char.ofNat 12 then ['\\', 'f']
  else if c.toNat < 32 then uEscape c.toNat
  else if c.toNat < 127 then [c]
  else if c.toNat < 65536 then uEscape c.toNat
  else uEscape (55296 + (c.toNat - 65536) / 1024) ++ uEscape (56320 + (c.toNat - 65536) % 1024)

/-- A JSON string literal with quotes, as serialized by `json.dumps`. -/
def jsonQuote (s : String) : String :=
  "\"" ++ String.mk (s.data.map jsonEscapeChar).flatten ++ "\""

/-- The JSON values `json.dumps` receives in this program. -/
inductive JValue where
  | str (s : String)
  | int (n : Int)
  | arr (xs : List JValue)
  | obj (kvs : List (String × JValue))

/-- Indentation produced by `json.dumps(..., indent=2)` at a nesting level. -/
def jpad (lvl : Nat) : String := String.mk (List.replicate (2 * lvl) ' ')

/-- Join a list of rendered members with a separator, as `sep.join(...)`. -/
def joinSep (sep : String) : List String → String
  | [] => ""
  | [x] => x
  | x :: y :: xs => x ++ sep ++ joinSep sep (y :: xs)

/-- Model of `json.dumps(v, indent=2)` at a nesting level: strings and integers
inline; a nonempty container opens its bracket, puts each member on its own
line indented one level deeper, with `": "` between key and value and `","`
between members, and closes the bracket at the current level; empty
containers collapse to `[]` / `{}`.  The recursion is paid for with `fuel`
(structural, so the kernel can evaluate it); any `fuel` at least the
nesting depth of the value renders it exactly as `json.dumps` does. -/
def dumps : Nat → Nat → JValue → String
  | _, _, .str s => jsonQuote s
  | _, _, .int n => toString n
  | 0, _, .arr _ => ""
  | 0, _, .obj _ => ""
  | fuel + 1, lvl, .arr xs =>
    if xs.isEmpty then "[]"
    else
      "[\n"
        ++ joinSep ",\n" (xs.map fun x => jpad (lvl + 1) ++ dumps fuel (lvl + 1) x)
        ++ "\n" ++ jpad lvl ++ "]"
  | fuel + 1, lvl, .obj kvs =>
    if kvs.isEmpty then "\x7b\x7d"
    else
      "\x7b\n"
        ++ joinSep ",\n"
            (kvs.map fun kv =>
              jpad (lvl + 1) ++ jsonQuote kv.1 ++ ": " ++ dumps fuel (lvl + 1) kv.2)
        ++ "\n" ++ jpad lvl ++ "\x7d"

/-- The dictionary built for one entry, in its insertion order
`proto`, `port`, `pid`, `process`. -/
def entryJValue (e : Entry) : JValue :=
  .obj [("proto", .str e.proto), ("port", .int e.port),
        ("pid", .str e.pid), ("process", .str e.process)]

/-- Python `format_json(entries)`: `json.dumps({"ports": entries}, indent=2)`.
The document nests object / array / object / leaves, so fuel 3 renders it
in full. -/
def format_json (entries : List Entry) : String :=
  dumps 3 0 (.obj [("ports", .arr (entries.map entryJValue))])

/-- Python `f"{s:<w}"`: left-align, pad with spaces to width `w`. -/
def padRightS (s : String) (w : Nat) : String :=
  s ++ String.mk (List.replicate (w - s.length) ' ')

/-- Python `f"{s:>w}"`: right-align, pad with spaces to width `w`. -/
def padLeftS (s : String) (w : Nat) : String :=
  String.mk (List.replicate (w - s.length) ' ') ++ s

/-- One table row of `format_text`. -/
def textRow (e : Entry) : String :=
  padRightS e.proto 6 ++ " " ++ padLeftS (toString e.port) 6 ++ "  "
    ++ padLeftS e.pid 8 ++ "  " ++ e.process

/-- Python `format_text(entries)`: header, 50-dash separator, one row per entry,
and a placeholder line when the list is empty. -/
def format_text (entries : List Entry) : String :=
  let header := padRightS "Proto" 6 ++ " " ++ padLeftS "Port" 6 ++ "  "
    ++ padLeftS "PID" 8 ++ "  " ++ "Process"
  let sep := String.mk (List.replicate 50 '-')
  let lines := [header, sep] ++ entries.map textRow
    ++ (if entries.isEmpty then ["(no listening ports found)"] else [])
  String.intercalate "\n" lines

/-- One array member of the structured document as §4.4/§6 of the spec
describe it, with the field names of the §6 schema (`proto`, `port`, `pid`,
`process`), 2-space indentation per nesting level, written down directly as
a template. -/
def specEntryItem (e : Entry) : String :=
  "    \x7b\n      \"proto\": " ++ jsonQuote e.proto
    ++ ",\n      \"port\": " ++ toString e.port
    ++ ",\n      \"pid\": " ++ jsonQuote e.pid
    ++ ",\n      \"process\": " ++ jsonQuote e.process
    ++ "\n    \x7d"

/-- The structured-mode document as the spec describes it: a single
top-level key `ports` holding the ordered sequence of entries, pretty-printed
with 2-space indentation (an empty sequence renders as an empty array). -/
def format_json_spec (entries : List Entry) : String :=
  match entries with
  | [] => "\x7b\n  \"ports\": []\n\x7d"
  | _ => "\x7b\n  \"ports\": [\n" ++ joinSep ",\n" (entries.map specEntryItem) ++ "\n  ]\n\x7d"

/-- One array member as the claim under examination words it: identical to
`specEntryItem` except that the first and last fields are named `protocol`
and `process_name`. -/
def claimEntryItem (e : Entry) : String :=
  "    \x7b\n      \"protocol\": " ++ jsonQuote e.proto
    ++ ",\n      \"port\": " ++ toString e.port
    ++ ",\n      \"pid\": " ++ jsonQuote e.pid
    ++ ",\n      \"process_name\": " ++ jsonQuote e.process
    ++ "\n    \x7d"

/-- The structured-mode document with the claimed field names
`protocol` / `process_name`. -/
def format_json_claim (entries : List Entry) : String :=
  match entries with
  | [] => "\x7b\n  \"ports\": []\n\x7d"
  | _ => "\x7b\n  \"ports\": [\n" ++ joinSep ",\n" (entries.map claimEntryItem) ++ "\n  ]\n\x7d"

/-- Model of `main`, with the platform scan abstracted as the entry list it returned:
parse the arguments, and on a normal return filter and render (`print`
appends the final newline); when parsing terminated the process, no scan
output is produced. -/
def mainOutput (argv : List String) (scanned : List Entry) : Option String :=
  match parse_args argv with
  | .ok opts =>
    let entries := filter_ports scanned opts
    some ((if opts.format = "json" then format_json entries else format_text entries) ++ "\n")
  | _ => none

/-! ## Helper lemmas -/

/-- The generic `json.dumps` model renders one entry dictionary exactly as
the 2-space-indented template does. -/
lemma specEntryItem_eq (e : Entry) :
    jpad 2 ++ dumps 1 2 (entryJValue e) = specEntryItem e := by
  apply String.ext
  simp [dumps, entryJValue, jpad, joinSep, specEntryItem, String.data_append,
    show jsonQuote "proto" = "\"proto\"" from rfl,
    show jsonQuote "port" = "\"port\"" from rfl,
    show jsonQuote "pid" = "\"pid\"" from rfl,
    show jsonQuote "process" = "\"process\"" from rfl]

/-- Function `format_json` renders every entry list exactly as the spec template. -/
lemma format_json_eq_spec (entries : List Entry) :
    format_json entries = format_json_spec entries := by
  cases entries with
  | nil => rfl
  | cons e rest =>
    have hfun : (fun x => jpad 2 ++ dumps 1 2 x) ∘ entryJValue = specEntryItem :=
      funext fun x => specEntryItem_eq x
    have houter : format_json (e :: rest)
        = "\x7b\n" ++ (jpad 1 ++ jsonQuote "ports" ++ ": "
            ++ ("[\n"
              ++ joinSep ",\n"
                  (((e :: rest).map entryJValue).map fun x => jpad 2 ++ dumps 1 2 x)
              ++ "\n" ++ jpad 1 ++ "]"))
          ++ "\n" ++ jpad 0 ++ "\x7d" := rfl
    rw [houter, List.map_map, hfun]
    apply String.ext
    simp [format_json_spec, jpad, String.data_append,
      show jsonQuote "ports" = "\"ports\"" from rfl]

/-- Every entry the dedup loop emits comes from its input list. -/
lemma dedupLoop_subset :
    ∀ (l : List Entry) (seen : List (String × Int × String)) (e : Entry),
      e ∈ dedupLoop seen l → e ∈ l := by
  intro l
  induction l with
  | nil => intro seen e h; simp [dedupLoop] at h
  | cons x rest ih =>
    intro seen e h
    rw [dedupLoop] at h
    by_cases hx : entryKey x ∈ seen
    · rw [if_pos hx] at h
      exact List.mem_cons_of_mem x (ih seen e h)
    · rw [if_neg hx] at h
      rcases List.mem_cons.mp h with h1 | h1
      · exact h1 ▸ List.mem_cons_self x rest
      · exact List.mem_cons_of_mem x (ih _ e h1)

/-- The key of every entry the dedup loop emits was not already seen. -/
lemma dedupLoop_key_not_seen :
    ∀ (l : List Entry) (seen : List (String × Int × String)) (e : Entry),
      e ∈ dedupLoop seen l → entryKey e ∉ seen := by
  intro l
  induction l with
  | nil => intro seen e h; simp [dedupLoop] at h
  | cons x rest ih =>
    intro seen e h
    rw [dedupLoop] at h
    by_cases hx : entryKey x ∈ seen
    · rw [if_pos hx] at h
      exact ih seen e h
    · rw [if_neg hx] at h
      rcases List.mem_cons.mp h with h1 | h1
      · exact h1 ▸ hx
      · intro hs
        exact ih _ e h1 (List.mem_cons_of_mem _ hs)

/-- The dedup loop emits at most one entry per `(proto, port, pid)` key. -/
lemma dedupLoop_pairwise :
    ∀ (l : List Entry) (seen : List (String × Int × String)),
      (dedupLoop seen l).Pairwise (fun a b => entryKey a ≠ entryKey b) := by
  intro l
  induction l with
  | nil => intro seen; simp [dedupLoop]
  | cons x rest ih =>
    intro seen
    rw [dedupLoop]
    by_cases hx : entryKey x ∈ seen
    · rw [if_pos hx]; exact ih seen
    · rw [if_neg hx]
      refine List.Pairwise.cons ?_ (ih _)
      intro b hb
      have := dedupLoop_key_not_seen rest _ b hb
      intro hkey
      exact this (hkey ▸ List.mem_cons_self _ _)

/-- The range step only selects entries from its input. -/
lemma rangeFilter_subset (entries : List Entry) (rs re : Option Int) (e : Entry)
    (h : e ∈ rangeFilter entries rs re) : e ∈ entries := by
  cases rs with
  | none => cases re <;> exact h
  | some lo =>
    cases re with
    | none => exact h
    | some hi => exact List.mem_of_mem_filter h

/-- Stepping rule of the argument loop: `--help`. -/
lemma parseLoop_help (o : Opts) (rest : List String) :
    parseLoop o ("--help" :: rest) = .helpExit := by
  rw [parseLoop.eq_def]; simp

/-- Stepping rule of the argument loop: `--common` sets bounds 1 and 1024. -/
lemma parseLoop_common (o : Opts) (rest : List String) :
    parseLoop o ("--common" :: rest)
      = parseLoop { o with range_start := some 1, range_end := some 1024 } rest := by
  rw [parseLoop.eq_def]; simp

/-- Stepping rule of the argument loop: `--range` with no value. -/
lemma parseLoop_range_nil (o : Opts) : parseLoop o ["--range"] = .usageExit := by
  rw [parseLoop.eq_def]; simp

/-- Stepping rule of the argument loop: `--range` with a value. -/
lemma parseLoop_range (o : Opts) (v : String) (rest : List String) :
    parseLoop o ("--range" :: v :: rest)
      = (if (splitOnCharAux '-' v.data []).length ≠ 2 then .usageExit
         else
           match pyIntChars ((splitOnCharAux '-' v.data []).getD 0 []),
                 pyIntChars ((splitOnCharAux '-' v.data []).getD 1 []) with
           | some a, some b =>
             parseLoop { o with range_start := some a, range_end := some b } rest
           | _, _ => .valueError) := by
  rw [parseLoop.eq_def]; simp [List.getD]

/-- Stepping rule of the argument loop: `--format` with no value. -/
lemma parseLoop_format_nil (o : Opts) : parseLoop o ["--format"] = .usageExit := by
  rw [parseLoop.eq_def]; simp

/-- Stepping rule of the argument loop: `--format` with a value. -/
lemma parseLoop_format (o : Opts) (v : String) (rest : List String) :
    parseLoop o ("--format" :: v :: rest)
      = (if v = "text" || v = "json" then parseLoop { o with format := v } rest
         else .usageExit) := by
  rw [parseLoop.eq_def]; simp

/-- Stepping rule of the argument loop: any unknown flag. -/
lemma parseLoop_other (o : Opts) (arg : String) (rest : List String)
    (h1 : arg ≠ "--help") (h2 : arg ≠ "--common") (h3 : arg ≠ "--range")
    (h4 : arg ≠ "--format") : parseLoop o (arg :: rest) = .usageExit := by
  rw [parseLoop.eq_def]
  simp only [if_neg h1, if_neg h2, if_neg h3, if_neg h4]

/-- Fuel-indexed form of `parseLoop_append` (the loop consumes up to two
tokens per step, so plain structural induction on the prefix is too weak). -/
lemma parseLoop_append_aux :
    ∀ (n : Nat) (pre : List String) (o o2 : Opts) (rest : List String),
      pre.length ≤ n →
      parseLoop o pre = .ok o2 →
      parseLoop o (pre ++ rest) = parseLoop o2 rest := by
  intro n
  induction n with
  | zero =>
    intro pre o o2 rest hn h
    have : pre = [] := List.eq_nil_of_length_eq_zero (Nat.le_zero.mp hn)
    subst this
    rw [parseLoop.eq_def] at h
    cases h
    rfl
  | succ n ih =>
    intro pre o o2 rest hn h
    cases pre with
    | nil =>
      rw [parseLoop.eq_def] at h
      cases h
      rfl
    | cons arg args =>
      rw [List.cons_append]
      by_cases h1 : arg = "--help"
      · subst h1; rw [parseLoop_help] at h; exact ParseResult.noConfusion h
      · by_cases h2 : arg = "--common"
        · subst h2
          rw [parseLoop_common] at h
          rw [parseLoop_common]
          exact ih args _ _ rest (by simpa using Nat.le_of_succ_le_succ hn) h
        · by_cases h3 : arg = "--range"
          · subst h3
            cases args with
            | nil => rw [parseLoop_range_nil] at h; exact ParseResult.noConfusion h
            | cons v rest2 =>
              rw [List.cons_append]
              rw [parseLoop_range] at h
              rw [parseLoop_range]
              by_cases h4 : (splitOnCharAux '-' v.data []).length ≠ 2
              · rw [if_pos h4] at h; exact ParseResult.noConfusion h
              · rw [if_neg h4] at h
                rw [if_neg h4]
                cases ha : pyIntChars ((splitOnCharAux '-' v.data []).getD 0 []) with
                | none =>
                  rw [ha] at h
                  exact ParseResult.noConfusion h
                | some a =>
                  rw [ha] at h
                  cases hb : pyIntChars ((splitOnCharAux '-' v.data []).getD 1 []) with
                  | none =>
                    rw [hb] at h
                    exact ParseResult.noConfusion h
                  | some b =>
                    rw [hb] at h
                    refine ih rest2 _ _ rest ?_ h
                    simp at hn
                    omega
          · by_cases h5 : arg = "--format"
            · subst h5
              cases args with
              | nil => rw [parseLoop_format_nil] at h; exact ParseResult.noConfusion h
              | cons v rest2 =>
                rw [List.cons_append]
                rw [parseLoop_format] at h
                rw [parseLoop_format]
                by_cases h6 : (v = "text" || v = "json") = true
                · rw [if_pos h6] at h
                  rw [if_pos h6]
                  refine ih rest2 _ _ rest ?_ h
                  simp at hn
                  omega
                · rw [if_neg h6] at h; exact ParseResult.noConfusion h
            · rw [parseLoop_other o arg _ h1 h2 h3 h5] at h
              exact ParseResult.noConfusion h

/-- Processing an argument prefix that returns normally, then the rest,
equals processing the whole vector. -/
lemma parseLoop_append (pre : List String) (o o2 : Opts) (rest : List String)
    (h : parseLoop o pre = .ok o2) :
    parseLoop o (pre ++ rest) = parseLoop o2 rest :=
  parseLoop_append_aux pre.length pre o o2 rest le_rfl h

/-! ## Claim theorems -/

/-- C1 (counterexample): the normalizers perform no range check on the
parsed port.  A 10-column `lsof`-shaped line whose address field ends in
`:99999` is accepted by `scan_macos`'s TCP loop and retained as an entry
with port 99999, outside 1–65535 — refuting "a record whose port field is
… out of that range is discarded, never retained". -/
theorem c1_counterexample :
    scan_macos_lines "TCP"
        ["COMMAND PID USER FD TYPE DEVICE SIZE NODE NAME",
         "node 1234 user 23u IPv4 0x1a 0t0 TCP *:99999 (LISTEN)"]
      = [{ proto := "TCP", port := 99999, pid := "1234", process := "node" }]
    ∧ ¬ ((99999 : Int) ≤ 65535) := by
  exact ⟨by decide, by decide⟩

/-- C1 (amended): a raw line whose port field is malformed (no trailing
`:digits` in the address column) is discarded by both normalizers, and any
retained entry's port is exactly the nonnegative value of the trailing digit
run of its address column — but no bound of 1–65535 is enforced. -/
theorem c1_amended_port_parsing (proto line : String) :
    (9 ≤ (pySplit line).length →
      trailingPort ((pySplit line).getD 8 "") = none →
      parseMacLine proto line = none)
    ∧ (5 ≤ (pySplit line).length →
      trailingPort ((pySplit line).getD 3 "") = none →
      parseLinuxLine proto line = none)
    ∧ (∀ e, parseMacLine proto line = some e →
        ∃ p : Nat, trailingPort ((pySplit line).getD 8 "") = some p
          ∧ e.port = (p : Int) ∧ 0 ≤ e.port)
    ∧ (∀ e, parseLinuxLine proto line = some e →
        ∃ p : Nat, trailingPort ((pySplit line).getD 3 "") = some p
          ∧ e.port = (p : Int) ∧ 0 ≤ e.port) := by
  have hmac : parseMacLine proto line
      = (if (pySplit line).length < 9 then none
         else
           match trailingPort ((pySplit line).getD 8 "") with
           | some port =>
             some ⟨proto, (port : Int), (pySplit line).getD 1 "", (pySplit line).getD 0 ""⟩
           | none => none) := rfl
  have hlin : parseLinuxLine proto line
      = (if (pySplit line).length < 5 then none
         else
           match trailingPort ((pySplit line).getD 3 "") with
           | none => none
           | some port =>
             match findAnnot (pySplit line) with
             | some (proc, pid) =>
               some ⟨proto, (port : Int), String.mk pid, String.mk proc⟩
             | none => some ⟨proto, (port : Int), "-", "-"⟩) := rfl
  refine ⟨?_, ?_, ?_, ?_⟩
  · intro h9 hnone
    rw [hmac, if_neg (by omega), hnone]
  · intro h5 hnone
    rw [hlin, if_neg (by omega), hnone]
  · intro e he
    rw [hmac] at he
    by_cases hlen : (pySplit line).length < 9
    · rw [if_pos hlen] at he; cases he
    · rw [if_neg hlen] at he
      cases htp : trailingPort ((pySplit line).getD 8 "") with
      | none => rw [htp] at he; cases he
      | some p =>
        rw [htp] at he
        cases he
        exact ⟨p, rfl, rfl, Int.natCast_nonneg p⟩
  · intro e he
    rw [hlin] at he
    by_cases hlen : (pySplit line).length < 5
    · rw [if_pos hlen] at he; cases he
    · rw [if_neg hlen] at he
      cases htp : trailingPort ((pySplit line).getD 3 "") with
      | none => rw [htp] at he; cases he
      | some p =>
        rw [htp] at he
        cases hfa : findAnnot (pySplit line) with
        | none =>
          rw [hfa] at he
          cases he
          exact ⟨p, rfl, rfl, Int.natCast_nonneg p⟩
        | some r =>
          rw [hfa] at he
          cases r with
          | mk proc pid =>
            cases he
            exact ⟨p, rfl, rfl, Int.natCast_nonneg p⟩

/-- C1 (witness): a 9-column line with no trailing `:digits` address is
discarded by the macOS normalizer. -/
theorem c1_amended_port_parsing_witness :
    parseMacLine "TCP" "a b c d e f g h i" = none :=
  (c1_amended_port_parsing "TCP" "a b c d e f g h i").1 (by decide) (by decide)

/-- C6 (counterexample): the literal raw line of the scenario,
`"node 1234 ... *:8080 (LISTEN)"`, splits into only 5 columns, so the
macOS TCP loop drops it (it requires at least 9 columns) and the scenario's
expected single entry is not produced. -/
theorem c6_counterexample :
    scan_macos_lines "TCP" ["Header", "node 1234 ... *:8080 (LISTEN)"] = []
    ∧ scan_macos_lines "TCP" ["Header", "node 1234 ... *:8080 (LISTEN)"]
        ≠ [{ proto := "TCP", port := 8080, pid := "1234", process := "node" }] := by
  exact ⟨by decide, by decide⟩

/-- C6 (amended): with the elided `lsof` columns written out, so the line
has the full 9+ columns with the address in column 9, the TCP path yields
exactly one entry `{TCP, 8080, "1234", "node"}`. -/
theorem c6_amended_scenario :
    scan_macos_lines "TCP"
        ["COMMAND PID USER FD TYPE DEVICE SIZE NODE NAME",
         "node 1234 user 23u IPv4 0x1a 0t0 TCP *:8080 (LISTEN)"]
      = [{ proto := "TCP", port := 8080, pid := "1234", process := "node" }] := by
  decide

/-- C7: a Linux raw line with enough columns and a valid trailing `:PORT`
address, none of whose columns matches the process-annotation pattern,
still yields an entry for that port with pid and process name both the
unknown sentinel `"-"` — the line is not dropped. -/
theorem c7_sentinel_when_no_process_info (proto line : String) (p : Nat)
    (h5 : 5 ≤ (pySplit line).length)
    (hport : trailingPort ((pySplit line).getD 3 "") = some p)
    (hannot : findAnnot (pySplit line) = none) :
    parseLinuxLine proto line = some ⟨proto, (p : Int), "-", "-"⟩ := by
  have hlin : parseLinuxLine proto line
      = (if (pySplit line).length < 5 then none
         else
           match trailingPort ((pySplit line).getD 3 "") with
           | none => none
           | some port =>
             match findAnnot (pySplit line) with
             | some (proc, pid) =>
               some ⟨proto, (port : Int), String.mk pid, String.mk proc⟩
             | none => some ⟨proto, (port : Int), "-", "-"⟩) := rfl
  rw [hlin, if_neg (by omega), hport, hannot]

/-- C7 (witness): a process-less `ss` UDP line yields port 68 with both
sentinel fields. -/
theorem c7_sentinel_when_no_process_info_witness :
    parseLinuxLine "UDP" "UNCONN 0 0 0.0.0.0:68 0.0.0.0:*"
      = some ⟨"UDP", (68 : Int), "-", "-"⟩ :=
  c7_sentinel_when_no_process_info "UDP" "UNCONN 0 0 0.0.0.0:68 0.0.0.0:*" 68
    (by decide) (by decide) (by decide)

/-- C2: with a provided range, `filter_ports` is the no-range pipeline run
on exactly the entries with `lo ≤ port ≤ hi` (inclusive both ends), every
retained entry's port lies in the range, with no range every entry passes
through unchanged to the dedup/sort stage, and applying the same range
twice filters the same as applying it once. -/
theorem c2_inclusive_range_filter (entries : List Entry) (fmt : String) (lo hi : Int) :
    filter_ports entries ⟨fmt, some lo, some hi⟩
      = filter_ports
          (entries.filter fun e => decide (lo ≤ e.port) && decide (e.port ≤ hi))
          ⟨fmt, none, none⟩
    ∧ (∀ e, e ∈ filter_ports entries ⟨fmt, some lo, some hi⟩ →
        lo ≤ e.port ∧ e.port ≤ hi)
    ∧ rangeFilter entries none none = entries
    ∧ rangeFilter (rangeFilter entries (some lo) (some hi)) (some lo) (some hi)
        = rangeFilter entries (some lo) (some hi) := by
  refine ⟨rfl, ?_, rfl, ?_⟩
  · intro e he
    have h1 : e ∈ dedupLoop [] (rangeFilter entries (some lo) (some hi)) :=
      (List.perm_insertionSort entryLe _).subset he
    have h2 : e ∈ rangeFilter entries (some lo) (some hi) :=
      dedupLoop_subset _ _ _ h1
    have h3 := List.mem_filter.mp h2
    have h4 := h3.2
    simp only [Bool.and_eq_true, decide_eq_true_eq] at h4
    exact h4
  · show (rangeFilter entries (some lo) (some hi)).filter _ = _
    simp only [rangeFilter, List.filter_filter, Bool.and_self]

/-- C2 (witness): with range 1–10, a retained entry's port is within it. -/
theorem c2_inclusive_range_filter_witness :
    (1 : Int) ≤ (Entry.mk "TCP" 5 "1" "a").port
    ∧ (Entry.mk "TCP" 5 "1" "a").port ≤ 10 :=
  (c2_inclusive_range_filter [⟨"TCP", 5, "1", "a"⟩] "text" 1 10).2.1
    ⟨"TCP", 5, "1", "a"⟩ (by decide)

/-- C3: for any permutation of an entry list, the `filter_ports` output is
sorted ascending by numeric port with ties broken by the lexical order of
the protocol string; concretely a UDP-then-TCP tie on port 80 comes out
TCP first. -/
theorem c3_output_sorted (entries entries2 : List Entry) (opts : Opts)
    (hperm : entries2.Perm entries) :
    (filter_ports entries2 opts).Pairwise
      (fun a b => a.port < b.port ∨ (a.port = b.port ∧ charListLe a.proto.data b.proto.data = true))
    ∧ filter_ports [⟨"UDP", 80, "1", "u"⟩, ⟨"TCP", 80, "2", "t"⟩] {}
        = [⟨"TCP", 80, "2", "t"⟩, ⟨"UDP", 80, "1", "u"⟩] := by
  refine ⟨?_, by decide⟩
  exact List.sorted_insertionSort entryLe _

/-- C3 (witness): instantiated on the two-entry port-80 tie and its swap. -/
theorem c3_output_sorted_witness :
    (filter_ports [⟨"TCP", 80, "2", "t"⟩, ⟨"UDP", 80, "1", "u"⟩] {}).Pairwise
      (fun a b => a.port < b.port ∨ (a.port = b.port ∧ charListLe a.proto.data b.proto.data = true))
    ∧ filter_ports [⟨"UDP", 80, "1", "u"⟩, ⟨"TCP", 80, "2", "t"⟩] {}
        = [⟨"TCP", 80, "2", "t"⟩, ⟨"UDP", 80, "1", "u"⟩] :=
  c3_output_sorted [⟨"UDP", 80, "1", "u"⟩, ⟨"TCP", 80, "2", "t"⟩]
    [⟨"TCP", 80, "2", "t"⟩, ⟨"UDP", 80, "1", "u"⟩] {} (by decide)

/-- C4: `filter_ports` output never holds two entries with the same
`(protocol, port, pid)` triple, and two entries differing only in process
name collapse to the single first one. -/
theorem c4_dedup_by_proto_port_pid (entries : List Entry) (opts : Opts) :
    (filter_ports entries opts).Pairwise
      (fun a b => (a.proto, a.port, a.pid) ≠ (b.proto, b.port, b.pid))
    ∧ filter_ports [⟨"TCP", 443, "99", "nginx"⟩, ⟨"TCP", 443, "99", "node"⟩] {}
        = [⟨"TCP", 443, "99", "nginx"⟩] := by
  refine ⟨?_, by decide⟩
  have hsym : ∀ {x y : Entry}, entryKey x ≠ entryKey y → entryKey y ≠ entryKey x :=
    fun h heq => h heq.symm
  have hperm := List.perm_insertionSort entryLe
    (dedupLoop [] (rangeFilter entries opts.range_start opts.range_end))
  exact (hperm.pairwise_iff hsym).mpr (dedupLoop_pairwise _ _)

/-- C9: every entry `filter_ports` returns is an element of its input list,
all four fields unchanged — the function only selects and reorders. -/
theorem c9_output_entries_from_input (entries : List Entry) (opts : Opts) (e : Entry)
    (h : e ∈ filter_ports entries opts) : e ∈ entries := by
  have h1 : e ∈ dedupLoop [] (rangeFilter entries opts.range_start opts.range_end) :=
    (List.perm_insertionSort entryLe _).subset h
  exact rangeFilter_subset _ _ _ _ (dedupLoop_subset _ _ _ h1)

/-- C9 (witness): the one output entry of a singleton scan is the input. -/
theorem c9_output_entries_from_input_witness :
    Entry.mk "TCP" 22 "3" "sshd" ∈ [Entry.mk "TCP" 22 "3" "sshd"] :=
  c9_output_entries_from_input [⟨"TCP", 22, "3", "sshd"⟩] {}
    ⟨"TCP", 22, "3", "sshd"⟩ (by decide)

set_option maxRecDepth 4096 in
/-- C5 (counterexample): the emitted document names the per-entry fields
`proto` and `process`, not `protocol` and `process_name` as the claim
words it — the claimed document differs from the actual one, and the
claimed key names do not occur in the output at all. -/
theorem c5_counterexample :
    format_json [⟨"TCP", 8080, "1234", "node"⟩]
      ≠ format_json_claim [⟨"TCP", 8080, "1234", "node"⟩]
    ∧ ¬ ("\"protocol\"".data <:+: (format_json [⟨"TCP", 8080, "1234", "node"⟩]).data)
    ∧ ¬ ("\"process_name\"".data <:+: (format_json [⟨"TCP", 8080, "1234", "node"⟩]).data) := by
  refine ⟨by decide, by decide, by decide⟩

/-- C5 (amended): structured-mode rendering emits a document with the single
top-level key `ports` holding the ordered entry sequence, each entry with
fields `proto`, `port`, `pid`, `process` (the spec §6 schema names),
pretty-printed with 2-space indentation. -/
theorem c5_structured_document (entries : List Entry) :
    format_json entries = format_json_spec entries :=
  format_json_eq_spec entries

/-- C8: after any argument prefix that parses normally, a `--range` flag
followed by a malformed value — not exactly two `-`-separated parts, or a
part `int()` rejects — terminates parsing with exit status 1 and a message
on the error stream (an explicit usage error, or the uncaught `ValueError`
traceback), and `main` produces no scan output. -/
theorem c8_malformed_range_fatal (pre post : List String) (v : String) (o : Opts)
    (hpre : parseLoop {} pre = .ok o)
    (hbad : (splitOnCharAux '-' v.data []).length ≠ 2
      ∨ pyIntChars ((splitOnCharAux '-' v.data []).getD 0 []) = none
      ∨ pyIntChars ((splitOnCharAux '-' v.data []).getD 1 []) = none) :
    exitCode (parse_args (pre ++ "--range" :: v :: post)) = some 1
    ∧ writesStderr (parse_args (pre ++ "--range" :: v :: post)) = true
    ∧ ∀ scanned, mainOutput (pre ++ "--range" :: v :: post) scanned = none := by
  have hstep : parse_args (pre ++ "--range" :: v :: post)
      = parseLoop o ("--range" :: v :: post) :=
    parseLoop_append pre {} o _ hpre
  have hres : parse_args (pre ++ "--range" :: v :: post) = .usageExit
      ∨ parse_args (pre ++ "--range" :: v :: post) = .valueError := by
    rw [hstep, parseLoop_range]
    by_cases h2 : (splitOnCharAux '-' v.data []).length ≠ 2
    · rw [if_pos h2]; exact Or.inl rfl
    · rw [if_neg h2]
      rcases hbad with hb | hb | hb
      · exact absurd hb h2
      · rw [hb]; exact Or.inr rfl
      · cases hc : pyIntChars ((splitOnCharAux '-' v.data []).getD 0 []) with
        | none => exact Or.inr rfl
        | some a => rw [hb]; exact Or.inr rfl
  rcases hres with h | h <;>
    exact ⟨by rw [h]; rfl, by rw [h]; rfl,
      fun scanned => by rw [mainOutput.eq_def, h]⟩

/-- C8 (witness): `--range abc` is fatal with status 1, an error-stream
message, and no scan output. -/
theorem c8_malformed_range_fatal_witness :
    exitCode (parse_args ["--range", "abc"]) = some 1
    ∧ writesStderr (parse_args ["--range", "abc"]) = true
    ∧ mainOutput ["--range", "abc"] [] = none := by
  have h := c8_malformed_range_fatal [] [] "abc" {}
    (by rw [parseLoop.eq_def]) (Or.inl (by decide))
  exact ⟨h.1, h.2.1, h.2.2 []⟩

/-- C10: repeated or combined flags follow last-occurrence-wins semantics:
`--common` then `--range A-B` leaves bounds `[A, B]`; `--range A-B` then
`--common` leaves `[1, 1024]`; two valid `--format` values leave the last. -/
theorem c10_last_occurrence_wins (v : String) (ca cb : List Char) (a b : Int)
    (f1 f2 : String)
    (hsplit : splitOnCharAux '-' v.data [] = [ca, cb])
    (ha : pyIntChars ca = some a) (hb : pyIntChars cb = some b)
    (hf1 : f1 = "text" ∨ f1 = "json") (hf2 : f2 = "text" ∨ f2 = "json") :
    parse_args ["--common", "--range", v] = .ok ⟨"text", some a, some b⟩
    ∧ parse_args ["--range", v, "--common"] = .ok ⟨"text", some 1, some 1024⟩
    ∧ parse_args ["--format", f1, "--format", f2] = .ok ⟨f2, none, none⟩ := by
  refine ⟨?_, ?_, ?_⟩
  · show parseLoop {} _ = _
    rw [parseLoop_common, parseLoop_range, hsplit]
    rw [if_neg (by simp)]
    simp only [List.getD_cons_zero, List.getD_cons_succ]
    rw [ha, hb]
    show parseLoop ⟨"text", some a, some b⟩ [] = ParseResult.ok ⟨"text", some a, some b⟩
    rw [parseLoop.eq_def]
  · show parseLoop {} _ = _
    rw [parseLoop_range, hsplit]
    rw [if_neg (by simp)]
    simp only [List.getD_cons_zero, List.getD_cons_succ]
    rw [ha, hb]
    show parseLoop ⟨"text", some a, some b⟩ ["--common"]
      = ParseResult.ok ⟨"text", some 1, some 1024⟩
    rw [parseLoop_common, parseLoop.eq_def]
  · rcases hf1 with rfl | rfl <;> rcases hf2 with rfl | rfl <;> decide

/-- C10 (witness): instantiated at `--range 5-9` and `--format text/json`. -/
theorem c10_last_occurrence_wins_witness :
    parse_args ["--common", "--range", "5-9"]
      = .ok ⟨"text", some 5, some 9⟩
    ∧ parse_args ["--range", "5-9", "--common"]
      = .ok ⟨"text", some 1, some 1024⟩
    ∧ parse_args ["--format", "text", "--format", "json"]
      = .ok ⟨"json", none, none⟩ :=
  c10_last_occurrence_wins "5-9" ['5'] ['9'] 5 9 "text" "json"
    (by decide) (by decide) (by decide) (Or.inl rfl) (Or.inr rfl)

end PortScan
